import Mathlib

/-!
Verification of the reminder core of the To-Do-Reminder-Discord-Bot
repository: a shallow embedding, in Lean, of

  * `src/utils/timeparser.py`   (`TimeParser`),
  * `src/utils/helpers.py`      (`ValidationHelper.validate_task_id` and the
                                 command guard in `src/cogs/tasks.py`),
  * `src/db/models.py`          (`TaskManager` reminder store operations),
  * `src/scheduler/scheduler.py` (`ReminderScheduler` over the APScheduler
                                 job table), and
  * `src/scheduler/reminder_jobs.py` (`ReminderJobHandler`),

followed by theorems settling the specification claims about them.

Python `datetime.datetime` values are represented by their proleptic
Gregorian ordinal day (`date.toordinal()`, day 1 = 0001-01-01) together
with hour/minute/second of day; microseconds are never produced by the
code under verification.  Machine integers do not overflow here (Python
integers are unbounded), so `Nat`/`Int` are used directly.
-/

namespace TodoBot

/-! ## Calendar arithmetic (the fragment of `datetime` the code uses) -/

def isLeapYear (y : Nat) : Bool :=
  (y % 4 == 0 && y % 100 != 0) || (y % 400 == 0)

def daysInMonth (y m : Nat) : Nat :=
  if m = 2 then (if isLeapYear y then 29 else 28)
  else if m = 4 ∨ m = 6 ∨ m = 9 ∨ m = 11 then 30
  else 31

def daysBeforeMonth (y m : Nat) : Nat :=
  (List.range (m - 1)).foldl (fun a i => a + daysInMonth y (i + 1)) 0

/-- `date(y, m, d).toordinal()`: day 1 is 0001-01-01. -/
def toOrdinal (y m d : Nat) : Int :=
  (365 * (y - 1) + (y - 1) / 4 - (y - 1) / 100 + (y - 1) / 400
    + daysBeforeMonth y m + d : Nat)

/-- Inverse of `toOrdinal` (the `date.fromordinal` direction), needed by
`strftime`.  Standard civil-from-days computation. -/
def fromOrdinal (n : Int) : Nat × Nat × Nat :=
  let z : Int := n + 305
  let era : Int := z / 146097
  let doe : Nat := (z - era * 146097).toNat
  let yoe : Nat := (doe - doe / 1460 + doe / 36524 - doe / 146096) / 365
  let doy : Nat := doe - (365 * yoe + yoe / 4 - yoe / 100)
  let mp : Nat := (5 * doy + 2) / 153
  let da : Nat := doy - (153 * mp + 2) / 5 + 1
  let mo : Nat := if mp < 10 then mp + 3 else mp - 9
  let yr : Int := era * 400 + yoe + (if mo ≤ 2 then 1 else 0)
  (yr.toNat, mo, da)

/-- A Python `datetime.datetime` value. -/
structure DateTime where
  ord : Int
  hour : Nat
  minute : Nat
  second : Nat
deriving DecidableEq, Repr

/-- Time-of-day fields in range (every real `datetime` satisfies this). -/
def DateTime.ValidTime (dt : DateTime) : Prop :=
  dt.hour < 24 ∧ dt.minute < 60 ∧ dt.second < 60

instance (dt : DateTime) : Decidable dt.ValidTime := by
  unfold DateTime.ValidTime; infer_instance

def secondsOfDay (dt : DateTime) : Nat :=
  dt.hour * 3600 + dt.minute * 60 + dt.second

def totalSeconds (dt : DateTime) : Int :=
  dt.ord * 86400 + secondsOfDay dt

/-- `a - b` as a signed number of seconds (`timedelta.total_seconds()`
of the difference; the code never produces sub-second components). -/
def diffSeconds (a b : DateTime) : Int :=
  totalSeconds a - totalSeconds b

/-- `dt + timedelta(seconds=n)` (normalising across day boundaries the
way `datetime` arithmetic does). -/
def addSeconds (dt : DateTime) (n : Int) : DateTime :=
  let t : Int := (secondsOfDay dt : Int) + n
  let q : Int := t / 86400
  let r : Nat := (t % 86400).toNat
  ⟨dt.ord + q, r / 3600, r % 3600 / 60, r % 60⟩

def addMinutes (dt : DateTime) (n : Nat) : DateTime := addSeconds dt (60 * n)

def addHours (dt : DateTime) (n : Nat) : DateTime := addSeconds dt (3600 * n)

/-- `dt + timedelta(days=n)`: the time of day is unchanged. -/
def addDays (dt : DateTime) (n : Int) : DateTime := { dt with ord := dt.ord + n }

/-- `datetime.weekday()`: Monday = 0 … Sunday = 6. -/
def weekdayOf (dt : DateTime) : Int := (dt.ord + 6) % 7

/-! ## String helpers shared by the parser embedding -/

def digitVal (c : Char) : Nat := c.toNat - 48

def natOfDigits (l : List Char) : Nat := l.foldl (fun a c => a * 10 + digitVal c) 0

/-- Python `str.strip()` on a character list. -/
def stripWs (l : List Char) : List Char :=
  ((l.dropWhile Char.isWhitespace).reverse.dropWhile Char.isWhitespace).reverse

/-- Match a literal pattern as a prefix (`re.match` is anchored at the
start only); returns the remaining input. -/
def matchLit : List Char → List Char → Option (List Char)
  | [], s => some s
  | _ :: _, [] => none
  | c :: cs, x :: xs => if x = c then matchLit cs xs else none

/-- Case-insensitive literal prefix match (pattern given in lowercase). -/
def matchCI : List Char → List Char → Option (List Char)
  | [], s => some s
  | _ :: _, [] => none
  | c :: cs, x :: xs => if x.toLower = c then matchCI cs xs else none

def splitAux : List Char → List Char → List (List Char)
  | [], acc => if acc.isEmpty then [] else [acc.reverse]
  | c :: cs, acc =>
    if c.isWhitespace then
      if acc.isEmpty then splitAux cs [] else acc.reverse :: splitAux cs []
    else splitAux cs (c :: acc)

/-- Python `str.split()` (split on whitespace runs, dropping empties). -/
def splitWhitespace (l : List Char) : List (List Char) := splitAux l []

/-! ## `TimeParser.parse_relative_time` (src/utils/timeparser.py lines 9-51)

The Python code reads the wall clock with `datetime.now()` inside the
function; the embedding makes that hidden input explicit as the `now`
argument (the value returned by the internal clock reads). -/

/-- One of the patterns `in (\d+) minutes?` / `hours?` / `days?`:
`unit` is the literal following the digits (e.g. `" minute"`; the
optional final `s` and everything after it are unconstrained because
`re.match` does not anchor the end). Returns the captured number. -/
def matchInAmount (unit : List Char) (s : List Char) : Option Nat :=
  match matchLit ("in ".toList) s with
  | none => none
  | some r =>
    let ds := r.takeWhile Char.isDigit
    if ds.isEmpty then none
    else
      match matchLit unit (r.dropWhile Char.isDigit) with
      | some _ => some (natOfDigits ds)
      | none => none

def weekdayNames : List String :=
  ["monday", "tuesday", "wednesday", "thursday", "friday", "saturday", "sunday"]

/-- The `weekday_map` dict of `_get_next_weekday`. -/
def weekday_map : List (String × Nat) :=
  [("monday", 0), ("tuesday", 1), ("wednesday", 2), ("thursday", 3),
   ("friday", 4), ("saturday", 5), ("sunday", 6)]

/-- Pattern `next (monday|tuesday|...|sunday)`; returns the captured
weekday name. -/
def matchNextWeekday (s : List Char) : Option String :=
  match matchLit ("next ".toList) s with
  | none => none
  | some r => weekdayNames.findSome? (fun w => (matchLit w.toList r).map (fun _ => w))

/-- The optional `(am|pm)?` group: `some` iff the group matched. -/
def matchAmPmOpt (s : List Char) : Option String :=
  match matchLit ("am".toList) s with
  | some _ => some "am"
  | none =>
    match matchLit ("pm".toList) s with
    | some _ => some "pm"
    | none => none

/-- Pattern `(today|tomorrow) at (\d{1,2}):(\d{2})(am|pm)?`, with the
regex backtracking between the two-digit and one-digit readings of the
hour group. -/
def matchTodayAt (s : List Char) : Option (String × Nat × Nat × Option String) :=
  let dayAlt : Option (String × List Char) :=
    match matchLit ("today".toList) s with
    | some r => some ("today", r)
    | none =>
      match matchLit ("tomorrow".toList) s with
      | some r => some ("tomorrow", r)
      | none => none
  match dayAlt with
  | none => none
  | some (day, r1) =>
    match matchLit (" at ".toList) r1 with
    | none => none
    | some r2 =>
      let cont : Nat → List Char → Option (Nat × Nat × Option String) := fun h r =>
        match r with
        | sep :: d1 :: d2 :: r3 =>
          if sep = ':' ∧ d1.isDigit ∧ d2.isDigit then
            some (h, digitVal d1 * 10 + digitVal d2, matchAmPmOpt r3)
          else none
        | _ => none
      match r2 with
      | [] => none
      | c1 :: rest1 =>
        if c1.isDigit then
          (match rest1 with
           | c2 :: rest2 =>
             if c2.isDigit then
               match cont (digitVal c1 * 10 + digitVal c2) rest2 with
               | some x => some (day, x)
               | none => (cont (digitVal c1) rest1).map (fun x => (day, x))
             else (cont (digitVal c1) rest1).map (fun x => (day, x))
           | [] => none)
        else none

/-- `TimeParser._get_next_weekday` (lines 128-143): both internal
`datetime.now()` reads are the modelled clock value `now`. -/
def get_next_weekday (now : DateTime) (weekday : String) : DateTime :=
  let target_day : Nat := (weekday_map.lookup weekday).getD 0
  let current_day : Int := weekdayOf now
  let days_ahead : Int := (target_day : Int) - current_day
  let days_ahead : Int := if days_ahead ≤ 0 then days_ahead + 7 else days_ahead
  addDays now days_ahead

/-- `TimeParser._get_specific_time` (lines 145-164).  A `none` result
models the `ValueError` that `datetime.replace` raises when the matched
hour/minute is out of range (unreachable from the claims below). -/
def get_specific_time (now : DateTime) (day : String) (hour minute : Nat)
    (ampm : Option String) : Option DateTime :=
  let hour :=
    match ampm with
    | some ap =>
      if ap = "pm" ∧ hour ≠ 12 then hour + 12
      else if ap = "am" ∧ hour = 12 then 0
      else hour
    | none => hour
  if 24 ≤ hour ∨ 60 ≤ minute then none
  else
    let target : DateTime := { now with hour := hour, minute := minute, second := 0 }
    some (if day = "tomorrow" then addDays target 1 else target)

/-- `TimeParser.parse_relative_time`: the seven patterns are tried in
the order of the Python list; each pattern is matched with `re.match`
(anchored at the start only) against the lowercased, stripped input. -/
def parse_relative_time (now : DateTime) (time_str : String) : Option DateTime :=
  let s : List Char := stripWs (time_str.toList.map Char.toLower)
  match matchInAmount (" minute".toList) s with
  | some n => some (addMinutes now n)
  | none =>
    match matchInAmount (" hour".toList) s with
    | some n => some (addHours now n)
    | none =>
      match matchInAmount (" day".toList) s with
      | some n => some (addDays now n)
      | none =>
        match matchLit ("tomorrow".toList) s with
        | some _ => some (addDays now 1)
        | none =>
          match matchLit ("next week".toList) s with
          | some _ => some (addDays now 7)
          | none =>
            match matchNextWeekday s with
            | some w => some (get_next_weekday now w)
            | none =>
              match matchTodayAt s with
              | some (day, h, mi, ap) => get_specific_time now day h mi ap
              | none => none

/-! ## `TimeParser.parse_absolute_time` (lines 53-111)

Python's `datetime.strptime` compiles each format string into a regex
(`_strptime.TimeRE`): whitespace in the format becomes `\s+`, and each
directive becomes an ordered alternation that the engine tries with
backtracking (e.g. `%m` is `1[0-2]|0[1-9]|[1-9]`).  The compiled regex
is matched as a prefix and strptime then rejects leftover input
("unconverted data").  The embedding interprets a token list the same
way: ordered alternatives with backtracking through the rest of the
format, first overall success wins, leftover checked afterwards. -/

inductive FTok where
  | lit : Char → FTok
  | ws          -- a whitespace run in the format: `\s+`
  | y4          -- %Y : \d\d\d\d
  | mon         -- %m : 1[0-2]|0[1-9]|[1-9]
  | da          -- %d : 3[01]|[12]\d|0[1-9]|[1-9]
  | h24         -- %H : 2[0-3]|[0-1]\d|\d
  | h12         -- %I : 1[0-2]|0[1-9]|[1-9]
  | minu        -- %M : [0-5]\d|\d
  | ap          -- %p : am|pm (case-insensitive)
  | monAbbr     -- %b : abbreviated month names
  | monFull     -- %B : full month names (longest first)
deriving Repr, DecidableEq

/-- Captured groups of a strptime match (`pIsPM`: the %p group). -/
structure PFields where
  py : Option Nat
  pmo : Option Nat
  pda : Option Nat
  pH : Option Nat
  pI : Option Nat
  pM : Option Nat
  pIsPM : Option Bool
deriving Repr, DecidableEq

def PFields.empty : PFields := ⟨none, none, none, none, none, none, none⟩

/-- Alternative `a[lo-hi]` (a fixed first digit, bounded second). -/
def reTwo (a lo hi : Char) (s : List Char) : List (Nat × List Char) :=
  match s with
  | c1 :: c2 :: r =>
    if c1 = a ∧ lo ≤ c2 ∧ c2 ≤ hi then [(digitVal c1 * 10 + digitVal c2, r)] else []
  | _ => []

/-- Alternative `[lo-hi]\d`. -/
def reTwoRange (lo hi : Char) (s : List Char) : List (Nat × List Char) :=
  match s with
  | c1 :: c2 :: r =>
    if lo ≤ c1 ∧ c1 ≤ hi ∧ c2.isDigit then [(digitVal c1 * 10 + digitVal c2, r)] else []
  | _ => []

/-- Alternative `[lo-hi]` (a single digit). -/
def reOne (lo hi : Char) (s : List Char) : List (Nat × List Char) :=
  match s with
  | c :: r => if lo ≤ c ∧ c ≤ hi then [(digitVal c, r)] else []
  | [] => []

/-- `%Y` : exactly four digits. -/
def reFourDigits (s : List Char) : List (Nat × List Char) :=
  match s with
  | a :: b :: c :: d :: r =>
    if a.isDigit ∧ b.isDigit ∧ c.isDigit ∧ d.isDigit then
      [(natOfDigits [a, b, c, d], r)]
    else []
  | _ => []

def monthAbbrs : List (String × Nat) :=
  [("jan", 1), ("feb", 2), ("mar", 3), ("apr", 4), ("may", 5), ("jun", 6),
   ("jul", 7), ("aug", 8), ("sep", 9), ("oct", 10), ("nov", 11), ("dec", 12)]

/-- Full month names in the order `_strptime` emits them (sorted by
length, longest first, stable within a length). -/
def monthFulls : List (String × Nat) :=
  [("september", 9), ("february", 2), ("november", 11), ("december", 12),
   ("january", 1), ("october", 10), ("august", 8), ("march", 3), ("april", 4),
   ("june", 6), ("july", 7), ("may", 5)]

def reMonthList (names : List (String × Nat)) (s : List Char) : List (Nat × List Char) :=
  names.filterMap (fun nv => (matchCI nv.1.toList s).map (fun r => (nv.2, r)))

def reAmPm (s : List Char) : List (Bool × List Char) :=
  (match matchCI ("am".toList) s with | some r => [(false, r)] | none => []) ++
  (match matchCI ("pm".toList) s with | some r => [(true, r)] | none => [])

/-- Interpret a strptime format with regex-style backtracking.  The
fuel argument (instantiated with the token count) only drives the
structural recursion; it never runs out. -/
def matchToks : Nat → List FTok → PFields → List Char → Option (PFields × List Char)
  | _, [], f, s => some (f, s)
  | 0, _ :: _, _, _ => none
  | fuel + 1, t :: ts, f, s =>
    match t with
    | .lit c =>
      match s with
      | x :: xs => if x.toLower = c.toLower then matchToks fuel ts f xs else none
      | [] => none
    | .ws =>
      -- `\s+`: the following token never matches whitespace in the
      -- formats below, so the greedy run needs no backtracking.
      match s with
      | x :: xs =>
        if x.isWhitespace then matchToks fuel ts f (xs.dropWhile Char.isWhitespace)
        else none
      | [] => none
    | .y4 =>
      (reFourDigits s).findSome? (fun vr => matchToks fuel ts { f with py := some vr.1 } vr.2)
    | .mon =>
      (reTwo '1' '0' '2' s ++ reTwo '0' '1' '9' s ++ reOne '1' '9' s).findSome?
        (fun vr => matchToks fuel ts { f with pmo := some vr.1 } vr.2)
    | .da =>
      (reTwo '3' '0' '1' s ++ reTwoRange '1' '2' s ++ reTwo '0' '1' '9' s ++ reOne '1' '9' s).findSome?
        (fun vr => matchToks fuel ts { f with pda := some vr.1 } vr.2)
    | .h24 =>
      (reTwo '2' '0' '3' s ++ reTwoRange '0' '1' s ++ reOne '0' '9' s).findSome?
        (fun vr => matchToks fuel ts { f with pH := some vr.1 } vr.2)
    | .h12 =>
      (reTwo '1' '0' '2' s ++ reTwo '0' '1' '9' s ++ reOne '1' '9' s).findSome?
        (fun vr => matchToks fuel ts { f with pI := some vr.1 } vr.2)
    | .minu =>
      (reTwoRange '0' '5' s ++ reOne '0' '9' s).findSome?
        (fun vr => matchToks fuel ts { f with pM := some vr.1 } vr.2)
    | .ap =>
      (reAmPm s).findSome? (fun vr => matchToks fuel ts { f with pIsPM := some vr.1 } vr.2)
    | .monAbbr =>
      (reMonthList monthAbbrs s).findSome?
        (fun vr => matchToks fuel ts { f with pmo := some vr.1 } vr.2)
    | .monFull =>
      (reMonthList monthFulls s).findSome?
        (fun vr => matchToks fuel ts { f with pmo := some vr.1 } vr.2)

/-- `datetime.strptime(s, fmt)` for the directive fragment used by the
format list: `none` models `ValueError` (no match, unconverted data
remaining, or an invalid calendar date such as Feb 30). -/
def strptime (fmt : List FTok) (s : List Char) : Option DateTime :=
  match matchToks fmt.length fmt PFields.empty s with
  | some (f, []) =>
    let y := f.py.getD 1900
    let mo := f.pmo.getD 1
    let dd := f.pda.getD 1
    let hr : Nat :=
      match f.pI, f.pIsPM with
      | some i, some true => if i = 12 then 12 else i + 12
      | some i, some false => if i = 12 then 0 else i
      | some i, none => i
      | none, _ => f.pH.getD 0
    let mi := f.pM.getD 0
    if 1 ≤ mo ∧ mo ≤ 12 ∧ 1 ≤ dd ∧ dd ≤ daysInMonth y mo then
      some ⟨toOrdinal y mo dd, hr, mi, 0⟩
    else none
  | _ => none

/-- The `formats` list of `parse_absolute_time`, in source order
(including the two repeated entries at the end). -/
def formats : List (List FTok) :=
  [[.y4, .lit '-', .mon, .lit '-', .da, .ws, .h24, .lit ':', .minu],
   [.y4, .lit '-', .mon, .lit '-', .da, .ws, .h12, .lit ':', .minu, .ws, .ap],
   [.y4, .lit '-', .mon, .lit '-', .da, .ws, .h12, .lit ':', .minu, .ap],
   [.da, .lit '/', .mon, .lit '/', .y4, .ws, .h24, .lit ':', .minu],
   [.da, .lit '/', .mon, .lit '/', .y4, .ws, .h12, .lit ':', .minu, .ws, .ap],
   [.mon, .lit '/', .da, .lit '/', .y4, .ws, .h24, .lit ':', .minu],
   [.mon, .lit '/', .da, .lit '/', .y4, .ws, .h12, .lit ':', .minu, .ws, .ap],
   [.monAbbr, .ws, .da, .ws, .h12, .lit ':', .minu, .ws, .ap],
   [.monFull, .ws, .da, .ws, .h12, .lit ':', .minu, .ws, .ap],
   [.y4, .lit '-', .mon, .lit '-', .da, .ws, .h12, .lit ':', .minu, .ws, .ap],
   [.y4, .lit '-', .mon, .lit '-', .da, .ws, .h12, .lit ':', .minu, .ap]]

def tryFormats (s : List Char) : Option DateTime :=
  formats.findSome? (fun fmt => strptime fmt s)

/-- `TimeParser.parse_absolute_time`: strip, remove quote characters,
try every format on the whole string, then retry on the two
re-combinations of the first whitespace-separated token with the rest. -/
def parse_absolute_time (time_str : String) : Option DateTime :=
  let s0 := stripWs time_str.toList
  let s := s0.filter (fun c => c != Char.ofNat 39 && c != Char.ofNat 34)
  match tryFormats s with
  | some dt => some dt
  | none =>
    match splitWhitespace s with
    | date_part :: t1 :: trest =>
      let time_part := List.intercalate [' '] (t1 :: trest)
      match tryFormats (date_part ++ ' ' :: time_part) with
      | some dt => some dt
      | none => tryFormats (date_part ++ ' ' :: time_part.filter (fun c => c != ' '))
    | _ => none

/-- `TimeParser.parse_time` (lines 113-126): relative first, then
absolute.  `now` is the wall-clock value `parse_relative_time` reads
internally; note that the Python signature has no such parameter. -/
def parse_time (now : DateTime) (time_str : String) : Option DateTime :=
  match parse_relative_time now time_str with
  | some result => some result
  | none =>
    match parse_absolute_time time_str with
    | some result => some result
    | none => none

/-! ## `TimeParser.format_time` and `format_relative_time` (lines 166-191) -/

def pad2 (n : Nat) : String := if n < 10 then "0" ++ toString n else toString n

/-- `dt.strftime("%Y-%m-%d %I:%M %p")`. -/
def format_time (dt : DateTime) : String :=
  let ymd := fromOrdinal dt.ord
  let i12 := if dt.hour % 12 = 0 then 12 else dt.hour % 12
  toString ymd.1 ++ "-" ++ pad2 ymd.2.1 ++ "-" ++ pad2 ymd.2.2 ++ " " ++
    pad2 i12 ++ ":" ++ pad2 dt.minute ++ " " ++ (if dt.hour < 12 then "AM" else "PM")

/-- `TimeParser.format_relative_time`: the internal `datetime.now()`
read is the explicit `now` argument. -/
def format_relative_time (dt now : DateTime) : String :=
  let d := diffSeconds dt now
  if d < 0 then "past due"
  else
    let n := d.toNat
    let days := n / 86400
    let hours := n % 86400 / 3600
    let minutes := n % 86400 % 3600 / 60
    if days > 0 then "in " ++ toString days ++ " day" ++ (if days ≠ 1 then "s" else "")
    else if hours > 0 then "in " ++ toString hours ++ " hour" ++ (if hours ≠ 1 then "s" else "")
    else if minutes > 0 then "in " ++ toString minutes ++ " minute" ++ (if minutes ≠ 1 then "s" else "")
    else "now"

/-! ## `ValidationHelper.validate_task_id` (src/utils/helpers.py 140-145)

`bool(re.match(r'^[a-f0-9]{24}$', task_id))`.  In Python `$` matches at
the end of the string *or just before a newline at the end of the
string*, so the regex also accepts 24 hex characters followed by one
trailing newline. -/

def isLowerHex (c : Char) : Bool :=
  ('0' ≤ c && c ≤ '9') || ('a' ≤ c && c ≤ 'f')

/-- Consume exactly `n` lowercase-hex characters. -/
def consumeHex : Nat → List Char → Option (List Char)
  | 0, l => some l
  | _ + 1, [] => none
  | n + 1, c :: l => if isLowerHex c then consumeHex n l else none

def validate_task_id (s : String) : Bool :=
  if s.toList.isEmpty then false       -- `not task_id`
  else
    match consumeHex 24 s.toList with
    | some [] => true
    | some r => r == [Char.ofNat 10]   -- `$` before a trailing newline
    | none => false

/-- The guard every id-taking command in `src/cogs/tasks.py` runs
before touching the store (e.g. `view_task`, lines 83-96): on a
malformed id the handler replies and returns without calling
`get_task_by_id`. -/
inductive IdCommandStep where
  | malformedIdError
  | storeQueried
deriving Repr, DecidableEq

def view_task_first_step (task_id : String) : IdCommandStep :=
  if validate_task_id task_id then .storeQueried else .malformedIdError

/-! ## The reminder store (`src/db/models.py`)

A reminder document as persisted by `Reminder.to_dict` / rebuilt by
`Reminder.from_dict`; `rid` is the MongoDB `_id` (unique key) and the
due instant is an abstract timestamp (comparison is all the queries
use).  The collection is modelled as the list of its documents. -/

structure ReminderRec where
  rid : String
  user_id : Nat
  task_id : String
  reminder_time : Int
  message : String
  sent : Bool
  created_at : Int
deriving Repr, DecidableEq

abbrev Store := List ReminderRec

/-- `TaskManager.get_pending_reminders` (models.py 140-146): the query
`{"reminder_time": {"$lte": current_time}, "sent": False}`. -/
def get_pending_reminders (st : Store) (current_time : Int) : List ReminderRec :=
  st.filter (fun r => decide (r.reminder_time ≤ current_time) && !r.sent)

/-- `TaskManager.mark_reminder_sent` (models.py 148-157):
`update_one({"_id": id}, {"$set": {"sent": True}})` — updates at most
one document; the returned Bool is `modified_count > 0`. -/
def mark_reminder_sent : Store → String → Store × Bool
  | [], _ => ([], false)
  | r :: rs, rid =>
    if r.rid == rid then (({ r with sent := true }) :: rs, !r.sent)
    else
      let p := mark_reminder_sent rs rid
      (r :: p.1, p.2)

/-! ## The APScheduler job table (`src/scheduler/scheduler.py`)

`AsyncIOScheduler`'s job store keyed by job id; `add_job` with
`replace_existing=True` is an upsert, `remove_job` raises
`JobLookupError` when the id is absent (caught by the Python code's
`except` blocks, which then return `False`). -/

structure Job where
  runDate : Int
  rid : String
  uid : Nat
  tid : String
  msg : String
deriving Repr, DecidableEq

abbrev JobTable := List (String × Job)

def countKey (tbl : JobTable) (k : String) : Nat :=
  (tbl.filter (fun e => e.1 == k)).length

def hasKey (tbl : JobTable) (k : String) : Bool :=
  tbl.any (fun e => e.1 == k)

def getJob (tbl : JobTable) (k : String) : Option Job :=
  (tbl.find? (fun e => e.1 == k)).map (fun e => e.2)

/-- `scheduler.add_job(..., id=k, replace_existing=True)`. -/
def addJobReplace (tbl : JobTable) (k : String) (j : Job) : JobTable :=
  if hasKey tbl k then tbl.map (fun e => if e.1 == k then (k, j) else e)
  else tbl ++ [(k, j)]

/-- `scheduler.remove_job(k)` (the removal itself). -/
def eraseJob (tbl : JobTable) (k : String) : JobTable :=
  tbl.filter (fun e => !(e.1 == k))

/-- `ReminderScheduler.add_reminder` (scheduler.py 40-60): upsert the
job `reminder_<id>` and return `True`. -/
def add_reminder (tbl : JobTable) (reminder_id : String) (reminder_time : Int)
    (user_id : Nat) (task_id : String) (message : String) : JobTable × Bool :=
  (addJobReplace tbl ("reminder_" ++ reminder_id)
    ⟨reminder_time, reminder_id, user_id, task_id, message⟩, true)

/-- `ReminderScheduler.remove_reminder` (scheduler.py 62-71):
`remove_job` raising on a missing id is caught and reported as `False`. -/
def remove_reminder (tbl : JobTable) (reminder_id : String) : JobTable × Bool :=
  let job_id := "reminder_" ++ reminder_id
  if hasKey tbl job_id then (eraseJob tbl job_id, true) else (tbl, false)

/-- `ReminderScheduler.update_reminder` (scheduler.py 73-98), modelled
exactly as written: it first removes the job, *then* looks the job up
to recover its args, and only re-adds if that lookup found something. -/
def update_reminder (tbl : JobTable) (reminder_id : String) (new_time : Int) :
    JobTable × Bool :=
  let job_id := "reminder_" ++ reminder_id
  if hasKey tbl job_id then
    let tbl1 := eraseJob tbl job_id
    match getJob tbl1 job_id with
    | some j => (tbl1 ++ [(job_id, ⟨new_time, j.rid, j.uid, j.tid, j.msg⟩)], true)
    | none => (tbl1, false)
  else (tbl, false)

/-! ## The delivery dispatcher (`src/scheduler/reminder_jobs.py`)

The external collaborators of `_send_reminder` /
`handle_reminder_callback` — the task lookup, `bot.fetch_user`, and
`user.send` — are modelled by an environment recording how each step
would turn out for this delivery attempt. -/

inductive FetchUserResult where
  | found
  | notFound      -- discord.NotFound
  | httpError     -- discord.HTTPException
deriving Repr, DecidableEq

inductive DMSendResult where
  | ok
  | forbidden     -- discord.Forbidden (recipient blocks DMs)
  | otherError    -- any other send failure
deriving Repr, DecidableEq

structure DeliveryEnv where
  taskFound : Bool
  fetchUser : FetchUserResult
  dmSend : DMSendResult
deriving Repr, DecidableEq

/-- The direct-message send was reached and succeeded. -/
def send_succeeded (env : DeliveryEnv) : Bool :=
  env.taskFound && (env.fetchUser == .found) && (env.dmSend == .ok)

/-- `ReminderJobHandler._send_reminder` (reminder_jobs.py 60-97):
returns the store after the attempt and whether the DM went out.  Every
abort branch (`return`) leaves the store untouched;
`mark_reminder_sent` runs only after a successful `user.send`. -/
def send_reminder (env : DeliveryEnv) (st : Store) (reminder : ReminderRec) :
    Store × Bool :=
  if !env.taskFound then (st, false)
  else
    match env.fetchUser with
    | .notFound => (st, false)
    | .httpError => (st, false)
    | .found =>
      match env.dmSend with
      | .forbidden => (st, false)
      | .otherError => (st, false)
      | .ok => ((mark_reminder_sent st reminder.rid).1, true)

/-- `ReminderJobHandler.handle_reminder_callback` (reminder_jobs.py
99-137): same control flow, operating on the scheduler payload. -/
def handle_reminder_callback (env : DeliveryEnv) (st : Store)
    (reminder_id : String) (_user_id : Nat) (_task_id : String) (_message : String) :
    Store × Bool :=
  if !env.taskFound then (st, false)
  else
    match env.fetchUser with
    | .notFound => (st, false)
    | .httpError => (st, false)
    | .found =>
      match env.dmSend with
      | .forbidden => (st, false)
      | .otherError => (st, false)
      | .ok => ((mark_reminder_sent st reminder_id).1, true)

/-- `ReminderJobHandler._process_pending_reminders` (reminder_jobs.py
48-58): one durability-sweep cycle.  `envOf` gives each attempt's
environment; the second component collects the reminders for which
`_send_reminder` was invoked, in order. -/
def process_pending_reminders (envOf : ReminderRec → DeliveryEnv) (st : Store)
    (current_time : Int) : Store × List ReminderRec :=
  (get_pending_reminders st current_time).foldl
    (fun acc r => ((send_reminder (envOf r) acc.1 r).1, acc.2 ++ [r])) (st, [])

/-- `ReminderJobHandler.delete_reminder` (reminder_jobs.py 160-177):
cancels the scheduler job, then — per the source comment "For now,
we'll just mark it as sent" — calls `mark_reminder_sent` instead of
deleting the document, and returns `True`. -/
def delete_reminder (tbl : JobTable) (st : Store) (reminder_id : String) :
    JobTable × Store × Bool :=
  let tbl1 := (remove_reminder tbl reminder_id).1
  let st1 := (mark_reminder_sent st reminder_id).1
  (tbl1, st1, true)

/-! ## Helper lemmas about the job table -/

lemma countKey_nil (k : String) : countKey [] k = 0 := rfl

lemma countKey_append (t1 t2 : JobTable) (k : String) :
    countKey (t1 ++ t2) k = countKey t1 k + countKey t2 k := by
  simp [countKey, List.filter_append]

lemma countKey_eq_zero_of_not_hasKey (tbl : JobTable) (k : String)
    (h : hasKey tbl k = false) : countKey tbl k = 0 := by
  induction tbl with
  | nil => rfl
  | cons e t ih =>
    simp only [hasKey, List.any_cons, Bool.or_eq_false_iff] at h
    simp only [countKey, List.filter_cons, h.1, Bool.false_eq_true, if_false]
    exact ih (by simpa [hasKey] using h.2)

lemma countKey_singleton_self (k : String) (j : Job) : countKey [(k, j)] k = 1 := by
  simp [countKey, List.filter]

lemma countKey_singleton_ne (k k2 : String) (j : Job) (hne : k2 ≠ k) :
    countKey [(k, j)] k2 = 0 := by
  have : ((k, j).1 == k2) = false := by
    simp only [beq_eq_false_iff_ne, ne_eq]
    exact fun hk => hne hk.symm
  simp [countKey, List.filter, this]

lemma countKey_pos_of_hasKey (tbl : JobTable) (k : String)
    (h : hasKey tbl k = true) : countKey tbl k ≠ 0 := by
  unfold hasKey at h
  rw [List.any_eq_true] at h
  obtain ⟨e, he, hek⟩ := h
  have hmem : e ∈ tbl.filter (fun e => e.1 == k) := List.mem_filter.mpr ⟨he, hek⟩
  intro hz
  rw [countKey, List.length_eq_zero] at hz
  rw [hz] at hmem
  exact List.not_mem_nil e hmem

lemma countKey_map_replace (tbl : JobTable) (k : String) (j : Job) :
    countKey (tbl.map (fun e => if e.1 == k then (k, j) else e)) k = countKey tbl k := by
  induction tbl with
  | nil => rfl
  | cons e t ih =>
    unfold countKey at ih ⊢
    by_cases h : e.1 == k
    · have hk : ((k, j).1 == k) = true := beq_self_eq_true k
      simp only [List.map_cons, if_pos h, List.filter_cons, hk, h, if_true, List.length_cons, ih]
    · have h2 : (e.1 == k) = false := by simpa using h
      simp only [List.map_cons, if_neg h, List.filter_cons, h2, Bool.false_eq_true, if_false, ih]

lemma countKey_map_replace_ne (tbl : JobTable) (k k2 : String) (j : Job)
    (hne : k2 ≠ k) :
    countKey (tbl.map (fun e => if e.1 == k then (k, j) else e)) k2 = countKey tbl k2 := by
  induction tbl with
  | nil => rfl
  | cons e t ih =>
    unfold countKey at ih ⊢
    by_cases h : e.1 == k
    · have hk : ((k, j).1 == k2) = false := by
        simp only [beq_eq_false_iff_ne, ne_eq]
        exact fun hc => hne hc.symm
      have he2 : (e.1 == k2) = false := by
        simp only [beq_eq_false_iff_ne, ne_eq]
        intro hc
        exact hne (hc.symm.trans (beq_iff_eq.mp h))
      simp only [List.map_cons, if_pos h, List.filter_cons, hk, he2, Bool.false_eq_true,
        if_false, ih]
    · simp only [List.map_cons, if_neg h, List.filter_cons]
      by_cases he2 : e.1 == k2
      · simp only [he2, if_true, List.length_cons, ih]
      · have he3 : (e.1 == k2) = false := by simpa using he2
        simp only [he3, Bool.false_eq_true, if_false, ih]

lemma countKey_addJobReplace_self (tbl : JobTable) (k : String) (j : Job) :
    countKey (addJobReplace tbl k j) k =
      if countKey tbl k = 0 then 1 else countKey tbl k := by
  unfold addJobReplace
  by_cases h : hasKey tbl k
  · rw [if_pos h, countKey_map_replace, if_neg (countKey_pos_of_hasKey tbl k h)]
  · rw [if_neg h, countKey_append, countKey_singleton_self,
      countKey_eq_zero_of_not_hasKey tbl k (by simpa using h)]
    simp

lemma countKey_addJobReplace_ne (tbl : JobTable) (k k2 : String) (j : Job)
    (hne : k2 ≠ k) : countKey (addJobReplace tbl k j) k2 = countKey tbl k2 := by
  unfold addJobReplace
  by_cases h : hasKey tbl k
  · rw [if_pos h, countKey_map_replace_ne tbl k k2 j hne]
  · rw [if_neg h, countKey_append, countKey_singleton_ne k k2 j hne]
    omega

lemma getJob_map_replace (tbl : JobTable) (k : String) (j : Job) :
    getJob (tbl.map (fun e => if e.1 == k then (k, j) else e)) k =
      if hasKey tbl k then some j else none := by
  induction tbl with
  | nil => rfl
  | cons e t ih =>
    by_cases hek : e.1 == k
    · have h1 : hasKey (e :: t) k = true := by simp [hasKey, List.any_cons, hek]
      rw [h1, List.map_cons, if_pos hek]
      unfold getJob
      simp [List.find?_cons]
    · have h2 : (e.1 == k) = false := by simpa using hek
      have h1 : hasKey (e :: t) k = hasKey t k := by
        simp [hasKey, List.any_cons, h2]
      rw [h1, List.map_cons, if_neg hek]
      unfold getJob
      rw [show List.find? (fun e => e.1 == k)
            (e :: List.map (fun e => if e.1 == k then (k, j) else e) t)
          = List.find? (fun e => e.1 == k)
            (List.map (fun e => if e.1 == k then (k, j) else e) t) by
        simp [List.find?_cons, h2]]
      exact ih

lemma getJob_append_single (tbl : JobTable) (k : String) (j : Job)
    (h : hasKey tbl k = false) : getJob (tbl ++ [(k, j)]) k = some j := by
  induction tbl with
  | nil =>
    unfold getJob
    simp [List.find?_cons]
  | cons e t ih =>
    unfold hasKey at h
    rw [List.any_cons, Bool.or_eq_false_iff] at h
    unfold getJob
    rw [List.cons_append,
      show List.find? (fun e => e.1 == k) (e :: (t ++ [(k, j)]))
          = List.find? (fun e => e.1 == k) (t ++ [(k, j)]) by
        simp [List.find?_cons, h.1]]
    exact ih (by simpa [hasKey] using h.2)

lemma getJob_addJobReplace_self (tbl : JobTable) (k : String) (j : Job) :
    getJob (addJobReplace tbl k j) k = some j := by
  unfold addJobReplace
  by_cases h : hasKey tbl k
  · rw [if_pos h, getJob_map_replace, if_pos h]
  · rw [if_neg h, getJob_append_single tbl k j (by simpa using h)]

lemma hasKey_eraseJob (tbl : JobTable) (k : String) :
    hasKey (eraseJob tbl k) k = false := by
  unfold hasKey eraseJob
  rw [List.any_eq_false]
  intro e he
  rcases List.mem_filter.mp he with ⟨_, hne⟩
  simpa using hne

lemma getJob_eraseJob (tbl : JobTable) (k : String) :
    getJob (eraseJob tbl k) k = none := by
  unfold getJob
  have hn : (eraseJob tbl k).find? (fun e => e.1 == k) = none := by
    rw [List.find?_eq_none]
    intro e he
    rcases List.mem_filter.mp he with ⟨_, hne⟩
    simpa using hne
  rw [hn]
  rfl

/-! ## Helper lemmas about the reminder store -/

lemma mem_get_pending (st : Store) (now : Int) (r : ReminderRec) :
    r ∈ get_pending_reminders st now ↔
      r ∈ st ∧ r.reminder_time ≤ now ∧ r.sent = false := by
  unfold get_pending_reminders
  rw [List.mem_filter]
  simp [and_assoc]

lemma mark_reminder_sent_rids (st : Store) (rid : String) :
    (mark_reminder_sent st rid).1.map (fun r => r.rid) = st.map (fun r => r.rid) := by
  induction st with
  | nil => rfl
  | cons r rs ih =>
    by_cases h : r.rid == rid
    · simp [mark_reminder_sent, h, beq_iff_eq.mp h]
    · simp [mark_reminder_sent, h, ih]

/-- After `mark_reminder_sent` on a store whose ids are unique (MongoDB
`_id` is a unique key), the marked id never appears in a pending query
again. -/
lemma mark_excludes (st : Store) (rid : String) (later : Int) (r : ReminderRec)
    (hnd : (st.map (fun r2 => r2.rid)).Nodup)
    (h : r ∈ get_pending_reminders (mark_reminder_sent st rid).1 later) :
    r.rid ≠ rid := by
  induction st with
  | nil => simp [mark_reminder_sent, get_pending_reminders] at h
  | cons r0 rs ih =>
    rw [List.map_cons, List.nodup_cons] at hnd
    by_cases h0 : r0.rid == rid
    · simp only [mark_reminder_sent, h0, if_true] at h
      rcases (mem_get_pending _ _ _).mp h with ⟨hm, _, hs⟩
      rcases List.mem_cons.mp hm with h1 | h1
      · subst h1
        simp at hs
      · intro hc
        have : r.rid ∈ rs.map (fun r2 => r2.rid) := List.mem_map.mpr ⟨r, h1, rfl⟩
        rw [hc, ← beq_iff_eq.mp h0] at this
        exact hnd.1 this
    · simp only [mark_reminder_sent, h0, if_false] at h
      rcases (mem_get_pending _ _ _).mp h with ⟨hm, hd, hs⟩
      rcases List.mem_cons.mp hm with h1 | h1
      · subst h1
        simpa using h0
      · exact ih hnd.2 ((mem_get_pending _ _ _).mpr ⟨h1, hd, hs⟩)

/-- If some record carries the id, `mark_reminder_sent` leaves a record
with that id whose `sent` flag is true. -/
lemma mark_sets_sent (st : Store) (rid : String)
    (h : ∃ r0 ∈ st, r0.rid = rid) :
    ∃ r2 ∈ (mark_reminder_sent st rid).1, r2.rid = rid ∧ r2.sent = true := by
  induction st with
  | nil => simp at h
  | cons r0 rs ih =>
    by_cases h0 : r0.rid == rid
    · refine ⟨{ r0 with sent := true }, ?_, beq_iff_eq.mp h0, rfl⟩
      simp [mark_reminder_sent, h0]
    · obtain ⟨rw0, hw, hwid⟩ := h
      rcases List.mem_cons.mp hw with h1 | h1
      · subst h1
        exact absurd hwid (by simpa using h0)
      · obtain ⟨r2, hr2, hid2, hs2⟩ := ih ⟨rw0, h1, hwid⟩
        exact ⟨r2, by simp [mark_reminder_sent, h0, List.mem_cons, hr2], hid2, hs2⟩

/-- The sweep loop invokes `_send_reminder` for exactly the records the
pending query returned, in order. -/
lemma process_pending_snd (envOf : ReminderRec → DeliveryEnv) (st : Store)
    (now : Int) :
    (process_pending_reminders envOf st now).2 = get_pending_reminders st now := by
  unfold process_pending_reminders
  generalize get_pending_reminders st now = l
  suffices h : ∀ (l : List ReminderRec) (st0 : Store) (acc : List ReminderRec),
      (l.foldl (fun acc r => ((send_reminder (envOf r) acc.1 r).1, acc.2 ++ [r])) (st0, acc)).2
        = acc ++ l by
    simpa using h l st []
  intro l
  induction l with
  | nil => simp
  | cons r rs ih =>
    intro st0 acc
    simp only [List.foldl_cons, ih, List.append_assoc, List.cons_append, List.nil_append]

/-! ## Helper lemmas about datetimes -/

lemma hasKey_remove_reminder (tbl : JobTable) (rid : String) :
    hasKey ((remove_reminder tbl rid).1) ("reminder_" ++ rid) = false := by
  unfold remove_reminder
  by_cases h : hasKey tbl ("reminder_" ++ rid)
  · rw [if_pos h]
    exact hasKey_eraseJob tbl ("reminder_" ++ rid)
  · rw [if_neg h]
    simpa using h

/-- The whole specification of `_get_next_weekday` for a name the
`weekday_map` sends to `d`: the result is 1-7 days ahead, lands on
weekday `d`, is exactly 7 days ahead when today already is `d`, and
keeps the time of day. -/
lemma get_next_weekday_spec (now : DateTime) (w : String) (d : Nat)
    (hl : (weekday_map.lookup w).getD 0 = d) (hd : d < 7) :
    now.ord < (get_next_weekday now w).ord ∧
    (get_next_weekday now w).ord ≤ now.ord + 7 ∧
    weekdayOf (get_next_weekday now w) = d ∧
    (weekdayOf now = d → (get_next_weekday now w).ord = now.ord + 7) ∧
    (get_next_weekday now w).hour = now.hour ∧
    (get_next_weekday now w).minute = now.minute ∧
    (get_next_weekday now w).second = now.second := by
  unfold get_next_weekday weekdayOf addDays
  rw [hl]
  dsimp only
  refine ⟨?_, ?_, ?_, ?_, rfl, rfl, rfl⟩ <;>
    · split
      all_goals omega

lemma addSeconds_zero (dt : DateTime) (h : dt.ValidTime) : addSeconds dt 0 = dt := by
  obtain ⟨h1, h2, h3⟩ := h
  cases dt with
  | mk o hh mm ss =>
    simp only [addSeconds, secondsOfDay] at *
    have hlt : hh * 3600 + mm * 60 + ss < 86400 := by omega
    simp only [DateTime.mk.injEq]
    refine ⟨?_, ?_, ?_, ?_⟩ <;>
      · simp only [add_zero]
        omega

/-! ## The claims -/

/-- C2: in `_send_reminder` and `handle_reminder_callback`, the store's
mark-sent operation runs if and only if the direct-message send was
reached and succeeded; in every abort branch (task missing, user not
resolvable via NotFound or HTTPException, Forbidden or any other send
failure) the function returns with the store unchanged. -/
theorem c2_mark_sent_iff_dm_delivered :
    ∀ (env : DeliveryEnv) (st : Store) (r : ReminderRec)
      (reminder_id : String) (user_id : Nat) (task_id message : String),
    send_reminder env st r =
      ((if send_succeeded env = true then (mark_reminder_sent st r.rid).1 else st),
        send_succeeded env) ∧
    handle_reminder_callback env st reminder_id user_id task_id message =
      ((if send_succeeded env = true then (mark_reminder_sent st reminder_id).1 else st),
        send_succeeded env) := by
  intro env st r reminder_id user_id task_id message
  rcases env with ⟨tf, fu, dm⟩
  cases tf <;> cases fu <;> cases dm <;>
    simp [send_reminder, handle_reminder_callback, send_succeeded]

/-- C5: `add_reminder` is an upsert (`replace_existing=True`), so two
successive schedules of the same reminder id leave exactly one live job,
carrying the second fire time and payload; and every `add_reminder`
call preserves the at-most-one-live-job-per-id invariant for every key. -/
theorem c5_schedule_upsert_single_live_job :
    (∀ (tbl : JobTable) (rid : String) (t1 t2 : Int) (uid : Nat) (tid msg : String),
      countKey tbl ("reminder_" ++ rid) ≤ 1 →
      countKey ((add_reminder ((add_reminder tbl rid t1 uid tid msg).1) rid t2 uid tid msg).1)
          ("reminder_" ++ rid) = 1 ∧
      getJob ((add_reminder ((add_reminder tbl rid t1 uid tid msg).1) rid t2 uid tid msg).1)
          ("reminder_" ++ rid) = some ⟨t2, rid, uid, tid, msg⟩) ∧
    (∀ (tbl : JobTable) (k rid : String) (t : Int) (uid : Nat) (tid msg : String),
      countKey tbl k ≤ 1 → countKey ((add_reminder tbl rid t uid tid msg).1) k ≤ 1) := by
  constructor
  · intro tbl rid t1 t2 uid tid msg hle
    unfold add_reminder
    constructor
    · rw [countKey_addJobReplace_self, countKey_addJobReplace_self]
      split_ifs <;> omega
    · exact getJob_addJobReplace_self _ _ _
  · intro tbl k rid t uid tid msg hle
    unfold add_reminder
    by_cases hk : k = "reminder_" ++ rid
    · subst hk
      rw [countKey_addJobReplace_self]
      split_ifs <;> omega
    · rw [countKey_addJobReplace_ne _ _ _ _ hk]
      exact hle

theorem c5_schedule_upsert_single_live_job_witness :
    countKey ((add_reminder ((add_reminder [] "r1" 5 1 "t1" "m").1) "r1" 9 1 "t1" "m").1)
        ("reminder_" ++ "r1") = 1 ∧
    getJob ((add_reminder ((add_reminder [] "r1" 5 1 "t1" "m").1) "r1" 9 1 "t1" "m").1)
        ("reminder_" ++ "r1") = some ⟨9, "r1", 1, "t1", "m"⟩ :=
  c5_schedule_upsert_single_live_job.1 [] "r1" 5 9 1 "t1" "m" (by decide)

/-- C6: each sweep cycle's query returns exactly the stored records with
due time at most the current time and `sent = false` (so a record with
`sent = true` is never returned); the sweep invokes delivery for exactly
those records; and once an id is marked sent (ids unique, as MongoDB
`_id` is) no record with that id appears in any later sweep query. -/
theorem c6_sweep_query_exact :
    (∀ (st : Store) (current_time : Int) (r : ReminderRec),
      r ∈ get_pending_reminders st current_time ↔
        r ∈ st ∧ r.reminder_time ≤ current_time ∧ r.sent = false) ∧
    (∀ (envOf : ReminderRec → DeliveryEnv) (st : Store) (current_time : Int),
      (process_pending_reminders envOf st current_time).2 =
        get_pending_reminders st current_time) ∧
    (∀ (st : Store) (rid : String) (later : Int) (r : ReminderRec),
      (st.map (fun r2 => r2.rid)).Nodup →
      r ∈ get_pending_reminders (mark_reminder_sent st rid).1 later → r.rid ≠ rid) :=
  ⟨mem_get_pending, process_pending_snd,
    fun st rid later r h1 h2 => mark_excludes st rid later r h1 h2⟩

theorem c6_sweep_query_exact_witness :
    (⟨"b", 2, "t", 0, "", false, 0⟩ : ReminderRec).rid ≠ "a" :=
  c6_sweep_query_exact.2.2
    [⟨"a", 1, "t", 0, "", false, 0⟩, ⟨"b", 2, "t", 0, "", false, 0⟩] "a" 10
    ⟨"b", 2, "t", 0, "", false, 0⟩ (by decide) (by decide)

/-- C10: for an id with a live job, `update_reminder` removes the job,
then looks it up in the now-jobless table, finds nothing, and returns
`False` without registering any replacement; afterwards no job for the
id exists. -/
theorem c10_update_reminder_drops_job :
    ∀ (tbl : JobTable) (rid : String) (new_time : Int),
    hasKey tbl ("reminder_" ++ rid) = true →
    update_reminder tbl rid new_time = (eraseJob tbl ("reminder_" ++ rid), false) ∧
    hasKey (update_reminder tbl rid new_time).1 ("reminder_" ++ rid) = false := by
  intro tbl rid new_time h
  have heq : update_reminder tbl rid new_time = (eraseJob tbl ("reminder_" ++ rid), false) := by
    unfold update_reminder
    dsimp only
    rw [if_pos h, getJob_eraseJob]
  refine ⟨heq, ?_⟩
  rw [heq]
  exact hasKey_eraseJob tbl ("reminder_" ++ rid)

theorem c10_update_reminder_drops_job_witness :
    update_reminder [("reminder_r1", ⟨5, "r1", 1, "t1", "m"⟩)] "r1" 9 =
      (eraseJob [("reminder_r1", ⟨5, "r1", 1, "t1", "m"⟩)] ("reminder_" ++ "r1"), false) ∧
    hasKey (update_reminder [("reminder_r1", ⟨5, "r1", 1, "t1", "m"⟩)] "r1" 9).1
        ("reminder_" ++ "r1") = false :=
  c10_update_reminder_drops_job [("reminder_r1", ⟨5, "r1", 1, "t1", "m"⟩)] "r1" 9 (by decide)

/-- C1, corrected: cancelling an unsent reminder before its due time
does make every later delivery attempt impossible — the scheduler job is
gone and the record is excluded from every future sweep query — but not
with `sent` left false, as the claim states: `delete_reminder`
implements deletion by `mark_reminder_sent`, so the persisted flag
becomes `true` (that is precisely what keeps the sweep away from it). -/
theorem c1_cancel_no_delivery_but_marks_sent :
    ∀ (tbl : JobTable) (st : Store) (rid : String) (r : ReminderRec) (now : Int),
    (st.map (fun r2 => r2.rid)).Nodup →
    r ∈ st → r.rid = rid → r.sent = false → now < r.reminder_time →
    hasKey (delete_reminder tbl st rid).1 ("reminder_" ++ rid) = false ∧
    (∀ (later : Int) (r2 : ReminderRec),
      r2 ∈ get_pending_reminders (delete_reminder tbl st rid).2.1 later → r2.rid ≠ rid) ∧
    (∃ r2 ∈ (delete_reminder tbl st rid).2.1, r2.rid = rid ∧ r2.sent = true) := by
  intro tbl st rid r now hnd hm hid _ _
  refine ⟨hasKey_remove_reminder tbl rid, ?_, ?_⟩
  · intro later r2 h2
    exact mark_excludes st rid later r2 hnd h2
  · exact mark_sets_sent st rid ⟨r, hm, hid⟩

theorem c1_cancel_no_delivery_but_marks_sent_witness :
    hasKey (delete_reminder [("reminder_aaa", ⟨100, "aaa", 1, "t1", ""⟩)]
        [⟨"aaa", 1, "t1", 100, "", false, 0⟩] "aaa").1 ("reminder_" ++ "aaa") = false ∧
    (∃ r2 ∈ (delete_reminder [("reminder_aaa", ⟨100, "aaa", 1, "t1", ""⟩)]
        [⟨"aaa", 1, "t1", 100, "", false, 0⟩] "aaa").2.1, r2.rid = "aaa" ∧ r2.sent = true) :=
  ⟨(c1_cancel_no_delivery_but_marks_sent
      [("reminder_aaa", ⟨100, "aaa", 1, "t1", ""⟩)]
      [⟨"aaa", 1, "t1", 100, "", false, 0⟩] "aaa"
      ⟨"aaa", 1, "t1", 100, "", false, 0⟩ 0
      (by decide) (by decide) rfl rfl (by decide)).1,
   (c1_cancel_no_delivery_but_marks_sent
      [("reminder_aaa", ⟨100, "aaa", 1, "t1", ""⟩)]
      [⟨"aaa", 1, "t1", 100, "", false, 0⟩] "aaa"
      ⟨"aaa", 1, "t1", 100, "", false, 0⟩ 0
      (by decide) (by decide) rfl rfl (by decide)).2.2⟩

/-- C1 counterexample to the claim as stated: a reminder cancelled
while unsent and not yet due ends with its persisted `sent` flag equal
to `true`, not `false` — `delete_reminder` marks the record sent in
lieu of deleting it. -/
theorem c1_claim_counterexample :
    ((delete_reminder [("reminder_aaa", ⟨100, "aaa", 1, "t1", ""⟩)]
        [⟨"aaa", 1, "t1", 100, "", false, 0⟩] "aaa").2.1.map (fun r => r.sent)) = [true] ∧
    ([true] : List Bool) ≠ [false] := by
  constructor
  · rfl
  · decide

/-- C3 counterexample to the claim as stated: the time parser is *not*
a function of its text and an injected reference time — the Python
signature has no reference-time parameter at all, and the output tracks
the internal `datetime.now()` read (modelled by the explicit clock
argument), so two runs of `parse_time` on the same text can differ. -/
theorem c3_claim_counterexample :
    ¬ ∀ (text : String) (clock1 clock2 : DateTime),
        parse_time clock1 text = parse_time clock2 text := by
  intro h
  exact absurd (h "in 0 minutes" ⟨0, 0, 0, 0⟩ ⟨1, 0, 0, 0⟩) (by decide)

/-- C3, corrected: the parser is deterministic only relative to the
internally read wall clock.  With the hidden clock read made explicit,
`parse_time` is a function (two runs with the same clock value agree
definitionally), but the clock is read inside the parser rather than
injected: on the same text, runs at different wall-clock instants
disagree — "in 0 minutes" returns the clock reading itself. -/
theorem c3_parse_depends_on_internal_clock :
    ∀ (clock1 clock2 : DateTime), clock1.ValidTime → clock2.ValidTime →
    clock1 ≠ clock2 →
    parse_time clock1 "in 0 minutes" = some clock1 ∧
    parse_time clock2 "in 0 minutes" = some clock2 ∧
    parse_time clock1 "in 0 minutes" ≠ parse_time clock2 "in 0 minutes" := by
  have key : ∀ (c : DateTime), c.ValidTime → parse_time c "in 0 minutes" = some c := by
    intro c hc
    have h0 : parse_time c "in 0 minutes" = some (addSeconds c ((60 * 0 : Nat) : Int)) := rfl
    rw [h0, show ((60 * 0 : Nat) : Int) = 0 by norm_num, addSeconds_zero c hc]
  intro clock1 clock2 h1 h2 hne
  refine ⟨key clock1 h1, key clock2 h2, ?_⟩
  rw [key clock1 h1, key clock2 h2]
  simp [hne]

theorem c3_parse_depends_on_internal_clock_witness :
    parse_time ⟨0, 0, 0, 0⟩ "in 0 minutes" = some ⟨0, 0, 0, 0⟩ ∧
    parse_time ⟨1, 0, 0, 0⟩ "in 0 minutes" = some ⟨1, 0, 0, 0⟩ ∧
    parse_time ⟨0, 0, 0, 0⟩ "in 0 minutes" ≠ parse_time ⟨1, 0, 0, 0⟩ "in 0 minutes" :=
  c3_parse_depends_on_internal_clock ⟨0, 0, 0, 0⟩ ⟨1, 0, 0, 0⟩
    (by decide) (by decide) (by decide)

/-- C4 counterexample to the claim as stated: at a timestamp exactly
equal to the reference time the difference is zero, the `< 0` guard
does not fire, and `format_relative_time` renders "now" — the claim
demands "past due" for every timestamp not strictly after `now`. -/
theorem c4_claim_counterexample :
    format_relative_time ⟨739438, 10, 0, 0⟩ ⟨739438, 10, 0, 0⟩ = "now" ∧
    ("now" : String) ≠ "past due" := by
  constructor
  · rfl
  · decide

/-- C4, corrected: "past due" is returned exactly when the timestamp is
*strictly before* `now` (a zero difference falls through to "now");
otherwise the largest whole unit is rendered — days when at least one
whole day remains, else hours, else minutes, else "now".  (`days`,
`hours`, `minutes` below are the code's `diff.days`,
`diff.seconds // 3600` and `(diff.seconds % 3600) // 60`; with
`days = 0` these are the whole hours/minutes remaining.) -/
theorem c4_format_relative_units :
    ∀ (t now : DateTime),
    (diffSeconds t now < 0 → format_relative_time t now = "past due") ∧
    (0 ≤ diffSeconds t now → 0 < (diffSeconds t now).toNat / 86400 →
      format_relative_time t now =
        "in " ++ toString ((diffSeconds t now).toNat / 86400) ++ " day" ++
          (if (diffSeconds t now).toNat / 86400 ≠ 1 then "s" else "")) ∧
    (0 ≤ diffSeconds t now → (diffSeconds t now).toNat / 86400 = 0 →
      0 < (diffSeconds t now).toNat % 86400 / 3600 →
      format_relative_time t now =
        "in " ++ toString ((diffSeconds t now).toNat % 86400 / 3600) ++ " hour" ++
          (if (diffSeconds t now).toNat % 86400 / 3600 ≠ 1 then "s" else "")) ∧
    (0 ≤ diffSeconds t now → (diffSeconds t now).toNat / 86400 = 0 →
      (diffSeconds t now).toNat % 86400 / 3600 = 0 →
      0 < (diffSeconds t now).toNat % 86400 % 3600 / 60 →
      format_relative_time t now =
        "in " ++ toString ((diffSeconds t now).toNat % 86400 % 3600 / 60) ++ " minute" ++
          (if (diffSeconds t now).toNat % 86400 % 3600 / 60 ≠ 1 then "s" else "")) ∧
    (0 ≤ diffSeconds t now → (diffSeconds t now).toNat / 86400 = 0 →
      (diffSeconds t now).toNat % 86400 / 3600 = 0 →
      (diffSeconds t now).toNat % 86400 % 3600 / 60 = 0 →
      format_relative_time t now = "now") := by
  intro t now
  unfold format_relative_time
  dsimp only
  refine ⟨fun h => ?_, fun h1 h2 => ?_, fun h1 h2 h3 => ?_,
    fun h1 h2 h3 h4 => ?_, fun h1 h2 h3 h4 => ?_⟩
  · rw [if_pos h]
  · rw [if_neg (by omega), if_pos h2]
  · rw [if_neg (by omega), if_neg (by omega), if_pos h3]
  · rw [if_neg (by omega), if_neg (by omega), if_neg (by omega), if_pos h4]
  · rw [if_neg (by omega), if_neg (by omega), if_neg (by omega), if_neg (by omega)]

theorem c4_format_relative_units_witness :
    format_relative_time ⟨1, 2, 0, 0⟩ ⟨1, 0, 0, 0⟩ = "in 2 hours" :=
  (c4_format_relative_units ⟨1, 2, 0, 0⟩ ⟨1, 0, 0, 0⟩).2.2.1
    (by decide) (by decide) (by decide)

/-- C7: for every weekday name in the grammar, parsing `next <weekday>`
applies `_get_next_weekday`, whose result is strictly after today
(never today itself), at most 7 days ahead, lands on the named weekday,
and is exactly 7 days ahead when today already is that weekday. -/
theorem c7_next_weekday :
    ∀ (w : String) (d : Nat), (w, d) ∈ weekday_map →
    ∀ (now : DateTime),
    parse_time now ("next " ++ w) = some (get_next_weekday now w) ∧
    now.ord < (get_next_weekday now w).ord ∧
    (get_next_weekday now w).ord ≤ now.ord + 7 ∧
    weekdayOf (get_next_weekday now w) = d ∧
    (weekdayOf now = d → (get_next_weekday now w).ord = now.ord + 7) := by
  intro w d hmem now
  fin_cases hmem
  · obtain ⟨a, b, c, d2, _, _, _⟩ := get_next_weekday_spec now "monday" 0 rfl (by norm_num)
    exact ⟨rfl, a, b, c, d2⟩
  · obtain ⟨a, b, c, d2, _, _, _⟩ := get_next_weekday_spec now "tuesday" 1 rfl (by norm_num)
    exact ⟨rfl, a, b, c, d2⟩
  · obtain ⟨a, b, c, d2, _, _, _⟩ := get_next_weekday_spec now "wednesday" 2 rfl (by norm_num)
    exact ⟨rfl, a, b, c, d2⟩
  · obtain ⟨a, b, c, d2, _, _, _⟩ := get_next_weekday_spec now "thursday" 3 rfl (by norm_num)
    exact ⟨rfl, a, b, c, d2⟩
  · obtain ⟨a, b, c, d2, _, _, _⟩ := get_next_weekday_spec now "friday" 4 rfl (by norm_num)
    exact ⟨rfl, a, b, c, d2⟩
  · obtain ⟨a, b, c, d2, _, _, _⟩ := get_next_weekday_spec now "saturday" 5 rfl (by norm_num)
    exact ⟨rfl, a, b, c, d2⟩
  · obtain ⟨a, b, c, d2, _, _, _⟩ := get_next_weekday_spec now "sunday" 6 rfl (by norm_num)
    exact ⟨rfl, a, b, c, d2⟩

theorem c7_next_weekday_witness :
    parse_time ⟨0, 0, 0, 0⟩ ("next " ++ "monday")
        = some (get_next_weekday ⟨0, 0, 0, 0⟩ "monday") ∧
    (⟨0, 0, 0, 0⟩ : DateTime).ord < (get_next_weekday ⟨0, 0, 0, 0⟩ "monday").ord ∧
    (get_next_weekday ⟨0, 0, 0, 0⟩ "monday").ord ≤ (⟨0, 0, 0, 0⟩ : DateTime).ord + 7 ∧
    weekdayOf (get_next_weekday ⟨0, 0, 0, 0⟩ "monday") = 0 ∧
    (weekdayOf (⟨0, 0, 0, 0⟩ : DateTime) = 0 →
      (get_next_weekday ⟨0, 0, 0, 0⟩ "monday").ord = (⟨0, 0, 0, 0⟩ : DateTime).ord + 7) :=
  c7_next_weekday "monday" 0 (by decide) ⟨0, 0, 0, 0⟩

/-- C8: the three absolute-form literals — plain, with the date and
time each wrapped in single-quote characters, and with no space before
AM — all parse (for any internal clock value, since no relative pattern
matches them) to the identical timestamp 2025-07-06T10:00:00, and
`format_time` renders that timestamp as "2025-07-06 10:00 AM". -/
theorem c8_absolute_forms_agree :
    (∀ clock : DateTime,
      parse_time clock "2025-07-06 10:00 AM" = some ⟨toOrdinal 2025 7 6, 10, 0, 0⟩) ∧
    (∀ clock : DateTime,
      parse_time clock ((Char.ofNat 39).toString ++ "2025-07-06" ++
          (Char.ofNat 39).toString ++ " " ++ (Char.ofNat 39).toString ++
          "10:00 AM" ++ (Char.ofNat 39).toString)
        = some ⟨toOrdinal 2025 7 6, 10, 0, 0⟩) ∧
    (∀ clock : DateTime,
      parse_time clock "2025-07-06 10:00AM" = some ⟨toOrdinal 2025 7 6, 10, 0, 0⟩) ∧
    format_time ⟨toOrdinal 2025 7 6, 10, 0, 0⟩ = "2025-07-06 10:00 AM" :=
  ⟨fun _ => rfl, fun _ => rfl, fun _ => rfl, rfl⟩

lemma consumeHex_some_iff : ∀ (n : Nat) (l r : List Char),
    consumeHex n l = some r ↔
      ∃ pre, l = pre ++ r ∧ pre.length = n ∧ pre.all isLowerHex = true := by
  intro n
  induction n with
  | zero =>
    intro l r
    constructor
    · intro h
      refine ⟨[], ?_, rfl, rfl⟩
      simpa [consumeHex] using h
    · rintro ⟨pre, hl, hlen, _⟩
      have hp : pre = [] := List.length_eq_zero.mp hlen
      subst hp
      simpa [consumeHex] using hl
  | succ n ih =>
    intro l r
    cases l with
    | nil =>
      simp only [consumeHex]
      constructor
      · intro h
        exact absurd h (by simp)
      · rintro ⟨pre, hl, hlen, _⟩
        have := congrArg List.length hl
        simp at this
        omega
    | cons c l2 =>
      by_cases hc : isLowerHex c
      · rw [show consumeHex (n + 1) (c :: l2) = consumeHex n l2 by simp [consumeHex, hc]]
        rw [ih l2 r]
        constructor
        · rintro ⟨pre2, h1, h2, h3⟩
          exact ⟨c :: pre2, by simp [h1], by simp [h2], by simp [List.all_cons, hc, h3]⟩
        · rintro ⟨pre, h1, h2, h3⟩
          cases pre with
          | nil => simp at h2
          | cons p ps =>
            rw [List.cons_append] at h1
            injection h1 with hcp hl2
            refine ⟨ps, hl2, by simpa using h2, ?_⟩
            rw [List.all_cons] at h3
            exact (Bool.and_eq_true _ _).mp h3 |>.2
      · rw [show consumeHex (n + 1) (c :: l2) = none by simp [consumeHex, hc]]
        constructor
        · intro h
          exact absurd h (by simp)
        · rintro ⟨pre, h1, h2, h3⟩
          cases pre with
          | nil => simp at h2
          | cons p ps =>
            rw [List.cons_append] at h1
            injection h1 with hcp _
            rw [List.all_cons] at h3
            have := (Bool.and_eq_true _ _).mp h3 |>.1
            rw [← hcp] at this
            exact absurd this (by simpa using hc)

/-- C9 counterexample to the claim as stated: because Python's `$`
also matches just before a newline at the end of the string,
`validate_task_id` accepts a 25-character input consisting of 24
lowercase-hex characters followed by a newline — not "exactly a
24-character lowercase hex string". -/
theorem c9_claim_counterexample :
    validate_task_id (String.mk (List.replicate 24 'a' ++ [Char.ofNat 10])) = true ∧
    (String.mk (List.replicate 24 'a' ++ [Char.ofNat 10])).toList.length = 25 ∧
    (25 : Nat) ≠ 24 := by
  refine ⟨?_, ?_, by decide⟩
  · rfl
  · rfl

/-- C9, corrected: the validator accepts a string iff it is 24
lowercase-hex characters (digits and a-f) either alone or followed by
exactly one trailing newline; everything else — wrong length,
uppercase, other characters, other surrounding characters — is
rejected, and the command handlers consult the validator before any
store query is made (`view_task_first_step` reaches the store query
iff validation passes). -/
theorem c9_validate_hex24_or_trailing_newline :
    ∀ s : String,
    (validate_task_id s = true ↔
      ∃ pre : List Char, (s.toList = pre ∨ s.toList = pre ++ [Char.ofNat 10]) ∧
        pre.length = 24 ∧ pre.all isLowerHex = true) ∧
    (view_task_first_step s = .storeQueried ↔ validate_task_id s = true) := by
  intro s
  constructor
  · unfold validate_task_id
    by_cases he : s.toList.isEmpty
    · rw [if_pos he]
      simp only [Bool.false_eq_true, false_iff]
      rintro ⟨pre, h1, h2, _⟩
      rw [List.isEmpty_iff] at he
      rcases h1 with h1 | h1
      · rw [he] at h1
        have := congrArg List.length h1
        simp at this
        omega
      · rw [he] at h1
        have := congrArg List.length h1
        rw [List.length_append] at this
        simp at this
    · rw [if_neg he]
      constructor
      · intro h
        rcases hc : consumeHex 24 s.toList with _ | r
        · rw [hc] at h
          exact absurd h (by simp)
        · rw [hc] at h
          obtain ⟨pre, h1, h2, h3⟩ := (consumeHex_some_iff 24 s.toList r).mp hc
          cases r with
          | nil => exact ⟨pre, Or.inl (by simpa using h1), h2, h3⟩
          | cons c rs =>
            have : (c :: rs) = [Char.ofNat 10] := by
              have hbeq : ((c :: rs) == [Char.ofNat 10]) = true := h
              exact beq_iff_eq.mp hbeq
            rw [this] at h1
            exact ⟨pre, Or.inr h1, h2, h3⟩
      · rintro ⟨pre, h1, h2, h3⟩
        rcases h1 with h1 | h1
        · have hc : consumeHex 24 s.toList = some [] :=
            (consumeHex_some_iff 24 s.toList []).mpr ⟨pre, by simpa using h1, h2, h3⟩
          rw [hc]
        · have hc : consumeHex 24 s.toList = some [Char.ofNat 10] :=
            (consumeHex_some_iff 24 s.toList [Char.ofNat 10]).mpr ⟨pre, h1, h2, h3⟩
          rw [hc]
          simp
  · unfold view_task_first_step
    by_cases hv : validate_task_id s
    · rw [if_pos hv]
      simp [hv]
    · rw [if_neg hv]
      constructor
      · intro h
        exact absurd h (by simp)
      · intro h
        exact absurd h (by simpa using hv)

end TodoBot
